import Mathlib

/-
Verification of the `TileExampleQueue` background retry queue from
`agent_bricks_service.py` (class `TileExampleQueue`, lines 1932-2098).

The queue maps a tile id (a string) to a tuple
`(manager, questions, tile_type, enqueue_time, attempt_count)`.
A background loop takes a snapshot of the mapping and, for each entry:
drops it if `attempt_count >= 30`; otherwise increments the attempt count,
dispatches a status check by tile type (`KA` / `MAS`), and when the status
equals the sentinel `EndpointStatus.ONLINE.value = "ONLINE"` performs the
batch apply and removes the entry.  Exceptions from the status check or the
apply remove the entry; an unknown tile type also removes it.

The embedding below models the Python dict as an association list with
dict semantics (replace-in-place on existing key, append on fresh key),
the injected `AgentBricksManager` capability as an environment of response
functions (per manager handle and tile id), exceptions as `Except Unit`,
and one pass of the `while` body as a fold of the per-entry block over the
snapshot.  Cross-cycle behaviour of the remote resource is a schedule
`Nat → Responses α` giving the environment used on each cycle.
-/

namespace TileQueue

/-- The readiness sentinel, `EndpointStatus.ONLINE.value` in the source
(line 202): the only status string that permits applying queued work. -/
def ONLINE : String := "ONLINE"

/-- The attempt ceiling from `if attempt_count >= 30` (line 2000). -/
def attemptCeiling : Nat := 30

/-- One queue entry: the tuple
`(manager, questions, tile_type, enqueue_time, attempt_count)` stored by
`enqueue` (line 1961).  The manager is an opaque capability handle, modelled
as a natural-number key into the response environment; `α` is the opaque
type of one question dictionary. -/
structure Entry (α : Type) where
  manager : Nat
  questions : List α
  tileType : String
  enqueueTime : Nat
  attemptCount : Nat
deriving DecidableEq, Repr

/-- The queue mapping `self.queue : Dict[str, Tuple[...]]` (line 1940),
modelled as an association list whose keys are unique. -/
abbrev QMap (α : Type) := List (String × Entry α)

/-- Dict lookup `self.queue[tile_id]` / `tile_id in self.queue`. -/
def qlookup {α : Type} : QMap α → String → Option (Entry α)
  | [], _ => none
  | (k, v) :: rest, key => if k = key then some v else qlookup rest key

/-- Dict assignment `self.queue[tile_id] = ...`: replace in place when the
key exists, append otherwise (Python dicts keep insertion order and keep the
position of an updated key). -/
def qinsert {α : Type} : QMap α → String → Entry α → QMap α
  | [], key, v => [(key, v)]
  | (k, w) :: rest, key, v =>
      if k = key then (key, v) :: rest else (k, w) :: qinsert rest key v

/-- Dict deletion `del self.queue[tile_id]` (the source always guards it
with `if tile_id in self.queue`, so deleting an absent key never happens;
on an absent key this is the identity). -/
def qerase {α : Type} : QMap α → String → QMap α
  | [], _ => []
  | (k, w) :: rest, key =>
      if k = key then rest else (k, w) :: qerase rest key

/-- Keys of the mapping, in insertion order. -/
def qkeys {α : Type} (q : QMap α) : List String := q.map Prod.fst

/-- The external capability environment: the behaviour, during one poll
cycle, of `manager.ka_get_endpoint_status`, `manager.mas_get_endpoint_status`,
`manager.ka_add_examples_batch` and `manager.mas_add_examples_batch` for each
manager handle and tile id.  `Except.error` models a raised exception;
a status of `none` models the documented `None` return for a missing
resource. -/
structure Responses (α : Type) where
  kaGetEndpointStatus : Nat → String → Except Unit (Option String)
  masGetEndpointStatus : Nat → String → Except Unit (Option String)
  kaAddExamplesBatch : Nat → String → List α → Except Unit (List α)
  masAddExamplesBatch : Nat → String → List α → Except Unit (List α)

/-- Status dispatch by tile type (lines 2023-2026): `KA` uses the KA status
accessor, anything else reaching this point uses the MAS accessor. -/
def statusOf {α : Type} (resp : Responses α) (tileType : String) (mgr : Nat)
    (tileId : String) : Except Unit (Option String) :=
  if tileType = "KA" then resp.kaGetEndpointStatus mgr tileId
  else resp.masGetEndpointStatus mgr tileId

/-- Batch-apply dispatch by tile type (lines 2044-2047). -/
def applyOf {α : Type} (resp : Responses α) (tileType : String) (mgr : Nat)
    (tileId : String) (payload : List α) : Except Unit (List α) :=
  if tileType = "KA" then resp.kaAddExamplesBatch mgr tileId payload
  else resp.masAddExamplesBatch mgr tileId payload

/-- Decidable equality for `Except`, needed so that concrete event traces
can be compared by `decide`. -/
instance exceptDecEq {ε β : Type} [DecidableEq ε] [DecidableEq β] :
    DecidableEq (Except ε β)
  | Except.error x, Except.error y =>
      if h : x = y then isTrue (by rw [h])
      else isFalse (by intro hc; cases hc; exact h rfl)
  | Except.error _, Except.ok _ => isFalse (by intro hc; cases hc)
  | Except.ok _, Except.error _ => isFalse (by intro hc; cases hc)
  | Except.ok x, Except.ok y =>
      if h : x = y then isTrue (by rw [h])
      else isFalse (by intro hc; cases hc; exact h rfl)

/-- Observable capability calls made while processing one entry: a status
check (with its outcome) or a batch-apply call (with the payload passed and
its outcome). -/
inductive Ev (α : Type) where
  | statusCheck (tileId : String) (tileType : String)
      (result : Except Unit (Option String))
  | applyCall (tileId : String) (payload : List α)
      (result : Except Unit (List α))
deriving DecidableEq, Repr

/-- Tile id an event belongs to. -/
def Ev.tileId {α : Type} : Ev α → String
  | .statusCheck id _ _ => id
  | .applyCall id _ _ => id

/-- Batch-apply calls recorded in an event trace, as (tile id, payload)
pairs. -/
def applyCalls {α : Type} (evs : List (Ev α)) : List (String × List α) :=
  evs.filterMap fun ev =>
    match ev with
    | .applyCall id payload _ => some (id, payload)
    | _ => none

/-- Events of a trace belonging to one tile id. -/
def evsFor {α : Type} (id : String) (evs : List (Ev α)) : List (Ev α) :=
  evs.filter fun ev => ev.tileId = id

/-- Entry with its attempt count incremented, as written back by lines
2012-2020 (all other tuple components are re-stored unchanged). -/
def incEntry {α : Type} (e : Entry α) : Entry α :=
  { e with attemptCount := e.attemptCount + 1 }

/-- Increment step of lines 2012-2020: re-store the snapshot tuple with
`attempt_count + 1` when the tile id is still present in the live mapping
(`if tile_id in self.queue`), otherwise leave the mapping unchanged. -/
def bumpAttempt {α : Type} (q : QMap α) (tileId : String) (e : Entry α) :
    QMap α :=
  if (qlookup q tileId).isSome then qinsert q tileId (incEntry e) else q

/-- One iteration of the per-entry `try` block of `_process_loop`
(lines 1998-2070), acting on the live mapping `q` with the snapshot values
`(tileId, e)`:

1. `attempt_count >= 30` (line 2000): delete the entry, make no capability
   call (lines 2006-2009).
2. Otherwise re-store the tuple with `attempt_count + 1` if the id is still
   in the live mapping (lines 2012-2020).
3. Dispatch the status check by tile type; an unknown type deletes the entry
   with no capability call (lines 2027-2033).
4. A raised exception from the status check or the apply is caught at line
   2065 and deletes the entry (lines 2068-2070).
5. Status equal to `"ONLINE"` (line 2038): perform the batch apply and on
   success delete the entry (lines 2056-2058); any other status leaves the
   entry in place (lines 2059-2063). -/
def processEntry {α : Type} (resp : Responses α) (tileId : String)
    (e : Entry α) (q : QMap α) : QMap α × List (Ev α) :=
  if attemptCeiling ≤ e.attemptCount then
    (qerase q tileId, [])
  else
    if e.tileType = "KA" ∨ e.tileType = "MAS" then
      match statusOf resp e.tileType e.manager tileId with
      | Except.error u =>
          (qerase (bumpAttempt q tileId e) tileId,
            [Ev.statusCheck tileId e.tileType (Except.error u)])
      | Except.ok status =>
          if status = some ONLINE then
            match applyOf resp e.tileType e.manager tileId e.questions with
            | Except.error u =>
                (qerase (bumpAttempt q tileId e) tileId,
                  [Ev.statusCheck tileId e.tileType (Except.ok status),
                   Ev.applyCall tileId e.questions (Except.error u)])
            | Except.ok created =>
                (qerase (bumpAttempt q tileId e) tileId,
                  [Ev.statusCheck tileId e.tileType (Except.ok status),
                   Ev.applyCall tileId e.questions (Except.ok created)])
          else
            (bumpAttempt q tileId e,
              [Ev.statusCheck tileId e.tileType (Except.ok status)])
    else
      (qerase (bumpAttempt q tileId e) tileId, [])

/-- Fold of `processEntry` over the snapshot `items_to_process`
(lines 1991-2070), threading the live mapping and concatenating the
capability-call traces. -/
def processCycleAux {α : Type} (resp : Responses α) :
    List (String × Entry α) → QMap α → QMap α × List (Ev α)
  | [], q => (q, [])
  | (tid, e) :: rest, q =>
      let r := processEntry resp tid e q
      let r2 := processCycleAux resp rest r.1
      (r2.1, r.2 ++ r2.2)

/-- One full poll cycle of `_process_loop` (lines 1984-2076): the snapshot
`list(self.queue.items())` taken at line 1988 is the current mapping, and
every snapshot entry is processed. -/
def processCycle {α : Type} (resp : Responses α) (q : QMap α) :
    QMap α × List (Ev α) :=
  processCycleAux resp q q

/-- Repeated poll cycles: `runFrom sched i n q` runs `n` cycles starting at
cycle index `i`, cycle `k` using the capability environment `sched k`,
and concatenates the traces. -/
def runFrom {α : Type} (sched : Nat → Responses α) :
    Nat → Nat → QMap α → QMap α × List (Ev α)
  | _, 0, q => (q, [])
  | i, Nat.succ n, q =>
      let r := processCycle (sched i) q
      let r2 := runFrom sched (i + 1) n r.1
      (r2.1, r.2 ++ r2.2)

/-- The effect of `TileExampleQueue.enqueue` (lines 1945-1964) on the
mapping: store `(manager, questions, tile_type, time.time(), 0)` under the
tile id, replacing any prior entry. -/
def enqueue {α : Type} (q : QMap α) (tileId : String) (mgr : Nat)
    (questions : List α) (tileType : String) (now : Nat) : QMap α :=
  qinsert q tileId ⟨mgr, questions, tileType, now, 0⟩

/-- Queue object state: the mapping together with the `self.running` flag
(lines 1940-1943). -/
structure QueueState (α : Type) where
  queue : QMap α
  running : Bool
deriving DecidableEq, Repr

/-- The state change of `TileExampleQueue.start` (lines 1970-1976): set
`running` when it is not already set (otherwise a no-op). -/
def startState {α : Type} (s : QueueState α) : QueueState α :=
  if s.running then s else { s with running := true }

/-- The state change of `TileExampleQueue.stop` (lines 2078-2083): clear
`running`; the mapping is untouched. -/
def stopState {α : Type} (s : QueueState α) : QueueState α :=
  { s with running := false }

/-- One wake-up of the background worker: the `while self.running` guard
(line 1984) means a cycle runs only when `running` is set; otherwise
nothing happens and no capability call is made. -/
def stepState {α : Type} (resp : Responses α) (s : QueueState α) :
    QueueState α × List (Ev α) :=
  if s.running then
    ({ s with queue := (processCycle resp s.queue).1 },
      (processCycle resp s.queue).2)
  else (s, [])

/-- The state change of `TileExampleQueue.enqueue` on the object state:
insert the fresh entry, then start the worker when it is not running
(lines 1960-1968). -/
def enqueueState {α : Type} (s : QueueState α) (tileId : String) (mgr : Nat)
    (questions : List α) (tileType : String) (now : Nat) : QueueState α :=
  let s1 : QueueState α :=
    { s with queue := enqueue s.queue tileId mgr questions tileType now }
  if s1.running then s1 else startState s1

/-! Basic association-list lemmas for the dict model. -/

theorem qkeys_nil {α : Type} : qkeys ([] : QMap α) = [] := rfl

theorem qkeys_cons {α : Type} (k : String) (w : Entry α)
    (t : QMap α) : qkeys ((k, w) :: t) = k :: qkeys t := rfl

theorem qinsert_cons_self {α : Type} (k : String) (w v : Entry α)
    (t : QMap α) : qinsert ((k, w) :: t) k v = (k, v) :: t := by
  simp [qinsert]

theorem qinsert_cons_ne {α : Type} {k0 k : String} (h : k0 ≠ k)
    (w v : Entry α) (t : QMap α) :
    qinsert ((k0, w) :: t) k v = (k0, w) :: qinsert t k v := by
  simp [qinsert, h]

theorem qerase_cons_self {α : Type} (k : String) (w : Entry α)
    (t : QMap α) : qerase ((k, w) :: t) k = t := by
  simp [qerase]

theorem qerase_cons_ne {α : Type} {k0 k : String} (h : k0 ≠ k)
    (w : Entry α) (t : QMap α) :
    qerase ((k0, w) :: t) k = (k0, w) :: qerase t k := by
  simp [qerase, h]

theorem qlookup_cons_self {α : Type} (k : String) (w : Entry α)
    (t : QMap α) : qlookup ((k, w) :: t) k = some w := by
  simp [qlookup]

theorem qlookup_cons_ne {α : Type} {k0 k : String} (h : k0 ≠ k)
    (w : Entry α) (t : QMap α) :
    qlookup ((k0, w) :: t) k = qlookup t k := by
  simp [qlookup, h]

theorem mem_qkeys_of_mem {α : Type} {q : QMap α} {id : String} {e : Entry α}
    (h : (id, e) ∈ q) : id ∈ qkeys q :=
  List.mem_map_of_mem Prod.fst h

theorem qlookup_eq_none_iff {α : Type} (q : QMap α) (id : String) :
    qlookup q id = none ↔ id ∉ qkeys q := by
  induction q with
  | nil => simp [qlookup, qkeys]
  | cons hd t ih =>
      obtain ⟨k, w⟩ := hd
      by_cases h : k = id
      · subst h
        rw [qlookup_cons_self, qkeys_cons]
        simp
      · rw [qlookup_cons_ne h, ih, qkeys_cons]
        simp only [List.mem_cons, not_or]
        constructor
        · intro h1
          exact ⟨fun h2 => h h2.symm, h1⟩
        · exact fun h1 => h1.2

theorem qlookup_some_mem {α : Type} {q : QMap α} {id : String} {e : Entry α}
    (h : qlookup q id = some e) : (id, e) ∈ q := by
  induction q with
  | nil => simp [qlookup] at h
  | cons hd t ih =>
      obtain ⟨k, w⟩ := hd
      by_cases hk : k = id
      · subst hk
        rw [qlookup_cons_self] at h
        obtain rfl : w = e := Option.some.inj h
        exact List.mem_cons_self _ _
      · rw [qlookup_cons_ne hk] at h
        exact List.mem_cons_of_mem _ (ih h)

theorem mem_qlookup_eq {α : Type} {q : QMap α} {id : String} {e : Entry α}
    (hnd : (qkeys q).Nodup) (h : (id, e) ∈ q) : qlookup q id = some e := by
  induction q with
  | nil => simp at h
  | cons hd t ih =>
      obtain ⟨k, w⟩ := hd
      rw [qkeys_cons, List.nodup_cons] at hnd
      rcases List.mem_cons.mp h with h1 | h1
      · have hk : id = k := congrArg Prod.fst h1
        have he : e = w := congrArg Prod.snd h1
        subst hk
        subst he
        rw [qlookup_cons_self]
      · have hne : k ≠ id := by
          intro hk
          subst hk
          exact hnd.1 (mem_qkeys_of_mem h1)
        rw [qlookup_cons_ne hne]
        exact ih hnd.2 h1

theorem qlookup_qinsert_self {α : Type} (q : QMap α) (k : String)
    (v : Entry α) : qlookup (qinsert q k v) k = some v := by
  induction q with
  | nil => simp [qinsert, qlookup]
  | cons hd t ih =>
      obtain ⟨k0, w⟩ := hd
      by_cases h : k0 = k
      · subst h
        rw [qinsert_cons_self, qlookup_cons_self]
      · rw [qinsert_cons_ne h, qlookup_cons_ne h]
        exact ih

theorem qlookup_qinsert_ne {α : Type} (q : QMap α) {k id : String}
    (v : Entry α) (h : k ≠ id) :
    qlookup (qinsert q k v) id = qlookup q id := by
  induction q with
  | nil => simp [qinsert, qlookup, h]
  | cons hd t ih =>
      obtain ⟨k0, w⟩ := hd
      by_cases h0 : k0 = k
      · subst h0
        rw [qinsert_cons_self, qlookup_cons_ne h, qlookup_cons_ne h]
      · rw [qinsert_cons_ne h0]
        by_cases h1 : k0 = id
        · subst h1
          rw [qlookup_cons_self, qlookup_cons_self]
        · rw [qlookup_cons_ne h1, qlookup_cons_ne h1]
          exact ih

theorem qlookup_qerase_ne {α : Type} (q : QMap α) {k id : String}
    (h : k ≠ id) : qlookup (qerase q k) id = qlookup q id := by
  induction q with
  | nil => simp [qerase]
  | cons hd t ih =>
      obtain ⟨k0, w⟩ := hd
      by_cases h0 : k0 = k
      · subst h0
        rw [qerase_cons_self, qlookup_cons_ne h]
      · rw [qerase_cons_ne h0]
        by_cases h1 : k0 = id
        · subst h1
          rw [qlookup_cons_self, qlookup_cons_self]
        · rw [qlookup_cons_ne h1, qlookup_cons_ne h1]
          exact ih

theorem mem_qkeys_qerase {α : Type} {q : QMap α} {k x : String}
    (h : x ∈ qkeys (qerase q k)) : x ∈ qkeys q := by
  induction q with
  | nil => simpa [qerase] using h
  | cons hd t ih =>
      obtain ⟨k0, w⟩ := hd
      by_cases h0 : k0 = k
      · subst h0
        rw [qerase_cons_self] at h
        rw [qkeys_cons]
        exact List.mem_cons_of_mem _ h
      · rw [qerase_cons_ne h0, qkeys_cons] at h
        rw [qkeys_cons]
        rcases List.mem_cons.mp h with h1 | h1
        · exact List.mem_cons.mpr (Or.inl h1)
        · exact List.mem_cons.mpr (Or.inr (ih h1))

theorem mem_qkeys_qinsert {α : Type} {q : QMap α} {k x : String}
    {v : Entry α} (h : x ∈ qkeys (qinsert q k v)) :
    x ∈ qkeys q ∨ x = k := by
  induction q with
  | nil =>
      simp only [qinsert, qkeys_cons, qkeys_nil, List.mem_singleton] at h
      exact Or.inr h
  | cons hd t ih =>
      obtain ⟨k0, w⟩ := hd
      by_cases h0 : k0 = k
      · subst h0
        rw [qinsert_cons_self, qkeys_cons] at h
        rcases List.mem_cons.mp h with h1 | h1
        · exact Or.inr h1
        · exact Or.inl (List.mem_cons.mpr (Or.inr h1))
      · rw [qinsert_cons_ne h0, qkeys_cons] at h
        rw [qkeys_cons]
        rcases List.mem_cons.mp h with h1 | h1
        · exact Or.inl (List.mem_cons.mpr (Or.inl h1))
        · rcases ih h1 with h2 | h2
          · exact Or.inl (List.mem_cons.mpr (Or.inr h2))
          · exact Or.inr h2

theorem qlookup_qerase_self {α : Type} {q : QMap α} {k : String}
    (hnd : (qkeys q).Nodup) : qlookup (qerase q k) k = none := by
  induction q with
  | nil => simp [qerase, qlookup]
  | cons hd t ih =>
      obtain ⟨k0, w⟩ := hd
      rw [qkeys_cons, List.nodup_cons] at hnd
      by_cases h0 : k0 = k
      · subst h0
        rw [qerase_cons_self]
        exact (qlookup_eq_none_iff t k0).mpr hnd.1
      · rw [qerase_cons_ne h0, qlookup_cons_ne h0]
        exact ih hnd.2

theorem qkeys_nodup_qinsert {α : Type} {q : QMap α} (k : String)
    (v : Entry α) (hnd : (qkeys q).Nodup) :
    (qkeys (qinsert q k v)).Nodup := by
  induction q with
  | nil => simp [qinsert, qkeys]
  | cons hd t ih =>
      obtain ⟨k0, w⟩ := hd
      rw [qkeys_cons, List.nodup_cons] at hnd
      by_cases h0 : k0 = k
      · subst h0
        rw [qinsert_cons_self, qkeys_cons, List.nodup_cons]
        exact hnd
      · rw [qinsert_cons_ne h0, qkeys_cons, List.nodup_cons]
        constructor
        · intro hk0
          rcases mem_qkeys_qinsert hk0 with hx | hx
          · exact hnd.1 hx
          · exact h0 hx
        · exact ih hnd.2

theorem qkeys_nodup_qerase {α : Type} {q : QMap α} (k : String)
    (hnd : (qkeys q).Nodup) : (qkeys (qerase q k)).Nodup := by
  induction q with
  | nil => simpa [qerase] using hnd
  | cons hd t ih =>
      obtain ⟨k0, w⟩ := hd
      rw [qkeys_cons, List.nodup_cons] at hnd
      by_cases h0 : k0 = k
      · subst h0
        rw [qerase_cons_self]
        exact hnd.2
      · rw [qerase_cons_ne h0, qkeys_cons, List.nodup_cons]
        exact ⟨fun hb => hnd.1 (mem_qkeys_qerase hb), ih hnd.2⟩

/-! Branch-level characterization of `processEntry`. -/

theorem pe_ceiling {α : Type} (resp : Responses α) (tid : String)
    (e : Entry α) (q : QMap α) (h : attemptCeiling ≤ e.attemptCount) :
    processEntry resp tid e q = (qerase q tid, []) := by
  unfold processEntry
  rw [if_pos h]

theorem pe_badKind {α : Type} (resp : Responses α) (tid : String)
    (e : Entry α) (q : QMap α) (h1 : e.attemptCount < attemptCeiling)
    (h2 : ¬(e.tileType = "KA" ∨ e.tileType = "MAS")) :
    processEntry resp tid e q = (qerase (bumpAttempt q tid e) tid, []) := by
  unfold processEntry
  rw [if_neg (Nat.not_le.mpr h1), if_neg h2]

theorem pe_statusError {α : Type} (resp : Responses α) (tid : String)
    (e : Entry α) (q : QMap α) (u : Unit)
    (h1 : e.attemptCount < attemptCeiling)
    (h2 : e.tileType = "KA" ∨ e.tileType = "MAS")
    (hs : statusOf resp e.tileType e.manager tid = Except.error u) :
    processEntry resp tid e q =
      (qerase (bumpAttempt q tid e) tid,
        [Ev.statusCheck tid e.tileType (Except.error u)]) := by
  unfold processEntry
  rw [if_neg (Nat.not_le.mpr h1), if_pos h2, hs]

theorem pe_notReady {α : Type} (resp : Responses α) (tid : String)
    (e : Entry α) (q : QMap α) (v : Option String)
    (h1 : e.attemptCount < attemptCeiling)
    (h2 : e.tileType = "KA" ∨ e.tileType = "MAS")
    (hs : statusOf resp e.tileType e.manager tid = Except.ok v)
    (hv : v ≠ some ONLINE) :
    processEntry resp tid e q =
      (bumpAttempt q tid e,
        [Ev.statusCheck tid e.tileType (Except.ok v)]) := by
  unfold processEntry
  rw [if_neg (Nat.not_le.mpr h1), if_pos h2, hs]
  simp [hv]

theorem pe_readyOk {α : Type} (resp : Responses α) (tid : String)
    (e : Entry α) (q : QMap α) (created : List α)
    (h1 : e.attemptCount < attemptCeiling)
    (h2 : e.tileType = "KA" ∨ e.tileType = "MAS")
    (hs : statusOf resp e.tileType e.manager tid = Except.ok (some ONLINE))
    (ha : applyOf resp e.tileType e.manager tid e.questions =
            Except.ok created) :
    processEntry resp tid e q =
      (qerase (bumpAttempt q tid e) tid,
        [Ev.statusCheck tid e.tileType (Except.ok (some ONLINE)),
         Ev.applyCall tid e.questions (Except.ok created)]) := by
  unfold processEntry
  rw [if_neg (Nat.not_le.mpr h1), if_pos h2, hs]
  simp [ha]

theorem pe_readyError {α : Type} (resp : Responses α) (tid : String)
    (e : Entry α) (q : QMap α) (u : Unit)
    (h1 : e.attemptCount < attemptCeiling)
    (h2 : e.tileType = "KA" ∨ e.tileType = "MAS")
    (hs : statusOf resp e.tileType e.manager tid = Except.ok (some ONLINE))
    (ha : applyOf resp e.tileType e.manager tid e.questions =
            Except.error u) :
    processEntry resp tid e q =
      (qerase (bumpAttempt q tid e) tid,
        [Ev.statusCheck tid e.tileType (Except.ok (some ONLINE)),
         Ev.applyCall tid e.questions (Except.error u)]) := by
  unfold processEntry
  rw [if_neg (Nat.not_le.mpr h1), if_pos h2, hs]
  simp [ha]

/-- The capability calls made for one entry do not depend on the live
mapping: the branch conditions of the loop body read only the snapshot
tuple and the capability responses. -/
theorem processEntry_events_indep {α : Type} (resp : Responses α)
    (tid : String) (e : Entry α) (q q' : QMap α) :
    (processEntry resp tid e q).2 = (processEntry resp tid e q').2 := by
  by_cases h1 : attemptCeiling ≤ e.attemptCount
  · rw [pe_ceiling resp tid e q h1, pe_ceiling resp tid e q' h1]
  · have h1' : e.attemptCount < attemptCeiling := Nat.not_le.mp h1
    by_cases h2 : e.tileType = "KA" ∨ e.tileType = "MAS"
    · cases hs : statusOf resp e.tileType e.manager tid with
      | error u =>
          rw [pe_statusError resp tid e q u h1' h2 hs,
            pe_statusError resp tid e q' u h1' h2 hs]
      | ok v =>
          by_cases hv : v = some ONLINE
          · subst hv
            cases ha : applyOf resp e.tileType e.manager tid e.questions with
            | error u =>
                rw [pe_readyError resp tid e q u h1' h2 hs ha,
                  pe_readyError resp tid e q' u h1' h2 hs ha]
            | ok created =>
                rw [pe_readyOk resp tid e q created h1' h2 hs ha,
                  pe_readyOk resp tid e q' created h1' h2 hs ha]
          · rw [pe_notReady resp tid e q v h1' h2 hs hv,
              pe_notReady resp tid e q' v h1' h2 hs hv]
    · rw [pe_badKind resp tid e q h1' h2, pe_badKind resp tid e q' h1' h2]

/-- Capability calls made for one snapshot entry, as a function of the
snapshot tuple and the responses alone. -/
def entryEvents {α : Type} (resp : Responses α) (tid : String)
    (e : Entry α) : List (Ev α) :=
  (processEntry resp tid e []).2

theorem processEntry_snd {α : Type} (resp : Responses α) (tid : String)
    (e : Entry α) (q : QMap α) :
    (processEntry resp tid e q).2 = entryEvents resp tid e :=
  processEntry_events_indep resp tid e q []

/-- Every event recorded while processing one entry carries that entry's
tile id. -/
theorem processEntry_events_tileId {α : Type} {resp : Responses α}
    {tid : String} {e : Entry α} {q : QMap α} {ev : Ev α}
    (hm : ev ∈ (processEntry resp tid e q).2) : ev.tileId = tid := by
  by_cases h1 : attemptCeiling ≤ e.attemptCount
  · rw [pe_ceiling resp tid e q h1] at hm
    simp at hm
  · have h1' : e.attemptCount < attemptCeiling := Nat.not_le.mp h1
    by_cases h2 : e.tileType = "KA" ∨ e.tileType = "MAS"
    · cases hs : statusOf resp e.tileType e.manager tid with
      | error u =>
          rw [pe_statusError resp tid e q u h1' h2 hs] at hm
          simp at hm
          subst hm
          rfl
      | ok v =>
          by_cases hv : v = some ONLINE
          · subst hv
            cases ha : applyOf resp e.tileType e.manager tid e.questions with
            | error u =>
                rw [pe_readyError resp tid e q u h1' h2 hs ha] at hm
                simp at hm
                rcases hm with hm | hm <;> (subst hm; rfl)
            | ok created =>
                rw [pe_readyOk resp tid e q created h1' h2 hs ha] at hm
                simp at hm
                rcases hm with hm | hm <;> (subst hm; rfl)
          · rw [pe_notReady resp tid e q v h1' h2 hs hv] at hm
            simp at hm
            subst hm
            rfl
    · rw [pe_badKind resp tid e q h1' h2] at hm
      simp at hm

/-- A batch-apply call recorded while processing one entry is for that
entry's tile id and passes exactly the snapshot payload. -/
theorem processEntry_apply_payload {α : Type} {resp : Responses α}
    {tid : String} {e : Entry α} {q : QMap α} {id : String} {pl : List α}
    {r : Except Unit (List α)}
    (hm : Ev.applyCall id pl r ∈ (processEntry resp tid e q).2) :
    id = tid ∧ pl = e.questions := by
  by_cases h1 : attemptCeiling ≤ e.attemptCount
  · rw [pe_ceiling resp tid e q h1] at hm
    simp at hm
  · have h1' : e.attemptCount < attemptCeiling := Nat.not_le.mp h1
    by_cases h2 : e.tileType = "KA" ∨ e.tileType = "MAS"
    · cases hs : statusOf resp e.tileType e.manager tid with
      | error u =>
          rw [pe_statusError resp tid e q u h1' h2 hs] at hm
          simp at hm
      | ok v =>
          by_cases hv : v = some ONLINE
          · subst hv
            cases ha : applyOf resp e.tileType e.manager tid e.questions with
            | error u =>
                rw [pe_readyError resp tid e q u h1' h2 hs ha] at hm
                simp at hm
                exact ⟨hm.1, hm.2.1⟩
            | ok created =>
                rw [pe_readyOk resp tid e q created h1' h2 hs ha] at hm
                simp at hm
                exact ⟨hm.1, hm.2.1⟩
          · rw [pe_notReady resp tid e q v h1' h2 hs hv] at hm
            simp at hm
    · rw [pe_badKind resp tid e q h1' h2] at hm
      simp at hm

/-! Effect of `processEntry` on the live mapping. -/

theorem bumpAttempt_some {α : Type} {q : QMap α} {tid : String}
    (e : Entry α) {w : Entry α} (h : qlookup q tid = some w) :
    bumpAttempt q tid e = qinsert q tid (incEntry e) := by
  unfold bumpAttempt
  rw [h]
  rfl

theorem bumpAttempt_none {α : Type} {q : QMap α} {tid : String}
    (e : Entry α) (h : qlookup q tid = none) : bumpAttempt q tid e = q := by
  unfold bumpAttempt
  rw [h]
  rfl

theorem bumpAttempt_lookup_ne {α : Type} (q : QMap α) {tid id : String}
    (e : Entry α) (h : tid ≠ id) :
    qlookup (bumpAttempt q tid e) id = qlookup q id := by
  unfold bumpAttempt
  by_cases hq : (qlookup q tid).isSome
  · rw [if_pos hq]
    exact qlookup_qinsert_ne q (incEntry e) h
  · rw [if_neg hq]

theorem bumpAttempt_nodup {α : Type} {q : QMap α} (tid : String)
    (e : Entry α) (hnd : (qkeys q).Nodup) :
    (qkeys (bumpAttempt q tid e)).Nodup := by
  unfold bumpAttempt
  by_cases hq : (qlookup q tid).isSome
  · rw [if_pos hq]
    exact qkeys_nodup_qinsert tid (incEntry e) hnd
  · rw [if_neg hq]
    exact hnd

/-- Processing an entry never touches the mapping at any other tile id. -/
theorem processEntry_lookup_ne {α : Type} (resp : Responses α)
    {tid : String} (e : Entry α) (q : QMap α) {id : String} (h : tid ≠ id) :
    qlookup (processEntry resp tid e q).1 id = qlookup q id := by
  by_cases h1 : attemptCeiling ≤ e.attemptCount
  · rw [pe_ceiling resp tid e q h1]
    exact qlookup_qerase_ne q h
  · have h1' : e.attemptCount < attemptCeiling := Nat.not_le.mp h1
    have herase : qlookup (qerase (bumpAttempt q tid e) tid) id =
        qlookup q id := by
      rw [qlookup_qerase_ne _ h, bumpAttempt_lookup_ne q e h]
    by_cases h2 : e.tileType = "KA" ∨ e.tileType = "MAS"
    · cases hs : statusOf resp e.tileType e.manager tid with
      | error u => rw [pe_statusError resp tid e q u h1' h2 hs]; exact herase
      | ok v =>
          by_cases hv : v = some ONLINE
          · subst hv
            cases ha : applyOf resp e.tileType e.manager tid e.questions with
            | error u =>
                rw [pe_readyError resp tid e q u h1' h2 hs ha]
                exact herase
            | ok created =>
                rw [pe_readyOk resp tid e q created h1' h2 hs ha]
                exact herase
          · rw [pe_notReady resp tid e q v h1' h2 hs hv]
            exact bumpAttempt_lookup_ne q e h
    · rw [pe_badKind resp tid e q h1' h2]
      exact herase

/-- After processing an entry, the live mapping either no longer contains
its tile id, or contains exactly the snapshot tuple with the attempt count
incremented (which happens only below the ceiling, in the not-ready
branch). -/
theorem processEntry_lookup_self {α : Type} (resp : Responses α)
    (tid : String) (e : Entry α) (q : QMap α)
    (hnd : (qkeys q).Nodup) :
    qlookup (processEntry resp tid e q).1 tid = none ∨
      (qlookup (processEntry resp tid e q).1 tid = some (incEntry e) ∧
        e.attemptCount < attemptCeiling) := by
  have hbnd : (qkeys (bumpAttempt q tid e)).Nodup :=
    bumpAttempt_nodup tid e hnd
  have herase : qlookup (qerase (bumpAttempt q tid e) tid) tid = none :=
    qlookup_qerase_self hbnd
  by_cases h1 : attemptCeiling ≤ e.attemptCount
  · rw [pe_ceiling resp tid e q h1]
    exact Or.inl (qlookup_qerase_self hnd)
  · have h1' : e.attemptCount < attemptCeiling := Nat.not_le.mp h1
    by_cases h2 : e.tileType = "KA" ∨ e.tileType = "MAS"
    · cases hs : statusOf resp e.tileType e.manager tid with
      | error u =>
          rw [pe_statusError resp tid e q u h1' h2 hs]
          exact Or.inl herase
      | ok v =>
          by_cases hv : v = some ONLINE
          · subst hv
            cases ha : applyOf resp e.tileType e.manager tid e.questions with
            | error u =>
                rw [pe_readyError resp tid e q u h1' h2 hs ha]
                exact Or.inl herase
            | ok created =>
                rw [pe_readyOk resp tid e q created h1' h2 hs ha]
                exact Or.inl herase
          · rw [pe_notReady resp tid e q v h1' h2 hs hv]
            cases hq : qlookup q tid with
            | none => exact Or.inl (by rw [bumpAttempt_none e hq]; exact hq)
            | some w =>
                refine Or.inr ⟨?_, h1'⟩
                rw [bumpAttempt_some e hq]
                exact qlookup_qinsert_self q tid (incEntry e)
    · rw [pe_badKind resp tid e q h1' h2]
      exact Or.inl herase

/-- Processing an entry preserves uniqueness of the mapping's keys. -/
theorem processEntry_nodup {α : Type} (resp : Responses α) (tid : String)
    (e : Entry α) {q : QMap α} (hnd : (qkeys q).Nodup) :
    (qkeys (processEntry resp tid e q).1).Nodup := by
  have hbnd : (qkeys (bumpAttempt q tid e)).Nodup :=
    bumpAttempt_nodup tid e hnd
  have herase : (qkeys (qerase (bumpAttempt q tid e) tid)).Nodup :=
    qkeys_nodup_qerase tid hbnd
  by_cases h1 : attemptCeiling ≤ e.attemptCount
  · rw [pe_ceiling resp tid e q h1]
    exact qkeys_nodup_qerase tid hnd
  · have h1' : e.attemptCount < attemptCeiling := Nat.not_le.mp h1
    by_cases h2 : e.tileType = "KA" ∨ e.tileType = "MAS"
    · cases hs : statusOf resp e.tileType e.manager tid with
      | error u => rw [pe_statusError resp tid e q u h1' h2 hs]; exact herase
      | ok v =>
          by_cases hv : v = some ONLINE
          · subst hv
            cases ha : applyOf resp e.tileType e.manager tid e.questions with
            | error u =>
                rw [pe_readyError resp tid e q u h1' h2 hs ha]
                exact herase
            | ok created =>
                rw [pe_readyOk resp tid e q created h1' h2 hs ha]
                exact herase
          · rw [pe_notReady resp tid e q v h1' h2 hs hv]
            exact hbnd
    · rw [pe_badKind resp tid e q h1' h2]
      exact herase

/-! Lemmas about one full poll cycle. -/

theorem aux_nil {α : Type} (resp : Responses α) (q : QMap α) :
    processCycleAux resp [] q = (q, []) := rfl

theorem aux_cons {α : Type} (resp : Responses α) (tid : String)
    (e : Entry α) (rest : List (String × Entry α)) (q : QMap α) :
    processCycleAux resp ((tid, e) :: rest) q =
      ((processCycleAux resp rest (processEntry resp tid e q).1).1,
        (processEntry resp tid e q).2 ++
          (processCycleAux resp rest (processEntry resp tid e q).1).2) := rfl

theorem evsFor_append {α : Type} (id : String) (l1 l2 : List (Ev α)) :
    evsFor id (l1 ++ l2) = evsFor id l1 ++ evsFor id l2 := by
  simp [evsFor, List.filter_append]

theorem applyCalls_append {α : Type} (l1 l2 : List (Ev α)) :
    applyCalls (l1 ++ l2) = applyCalls l1 ++ applyCalls l2 := by
  simp [applyCalls, List.filterMap_append]

theorem aux_nodup {α : Type} (resp : Responses α)
    (ss : List (String × Entry α)) :
    ∀ q : QMap α, (qkeys q).Nodup →
      (qkeys (processCycleAux resp ss q).1).Nodup := by
  induction ss with
  | nil => intro q hnd; exact hnd
  | cons hd rest ih =>
      obtain ⟨tid, e⟩ := hd
      intro q hnd
      rw [aux_cons]
      exact ih _ (processEntry_nodup resp tid e hnd)

theorem aux_lookup_not_mem {α : Type} (resp : Responses α)
    (ss : List (String × Entry α)) :
    ∀ (q : QMap α) (id : String), id ∉ qkeys ss →
      qlookup (processCycleAux resp ss q).1 id = qlookup q id := by
  induction ss with
  | nil => intro q id _; rfl
  | cons hd rest ih =>
      obtain ⟨tid, e⟩ := hd
      intro q id hid
      rw [qkeys_cons] at hid
      have h1 : tid ≠ id := fun h => hid (h ▸ List.mem_cons_self _ _)
      have h2 : id ∉ qkeys rest := fun h => hid (List.mem_cons_of_mem _ h)
      rw [aux_cons]
      calc qlookup (processCycleAux resp rest (processEntry resp tid e q).1).1 id
          = qlookup (processEntry resp tid e q).1 id := ih _ id h2
        _ = qlookup q id := processEntry_lookup_ne resp e q h1

theorem aux_lookup_mem {α : Type} (resp : Responses α)
    (ss : List (String × Entry α)) :
    ∀ (q : QMap α) (id : String) (e : Entry α),
      (qkeys ss).Nodup → (qkeys q).Nodup → (id, e) ∈ ss →
      qlookup (processCycleAux resp ss q).1 id = none ∨
        (qlookup (processCycleAux resp ss q).1 id = some (incEntry e) ∧
          e.attemptCount < attemptCeiling) := by
  induction ss with
  | nil => intro q id e _ _ hm; simp at hm
  | cons hd rest ih =>
      obtain ⟨tid, e0⟩ := hd
      intro q id e hss hq hm
      rw [qkeys_cons, List.nodup_cons] at hss
      rw [aux_cons]
      rcases List.mem_cons.mp hm with h1 | h1
      · have hid : id = tid := congrArg Prod.fst h1
        have he : e = e0 := congrArg Prod.snd h1
        subst hid
        subst he
        have hout : id ∉ qkeys rest := hss.1
        rw [aux_lookup_not_mem resp rest _ id hout]
        exact processEntry_lookup_self resp id e q hq
      · exact ih _ id e hss.2 (processEntry_nodup resp tid e0 hq) h1

theorem aux_events_not_mem {α : Type} (resp : Responses α)
    (ss : List (String × Entry α)) :
    ∀ (q : QMap α) (id : String), id ∉ qkeys ss →
      evsFor id (processCycleAux resp ss q).2 = [] := by
  induction ss with
  | nil => intro q id _; rfl
  | cons hd rest ih =>
      obtain ⟨tid, e⟩ := hd
      intro q id hid
      rw [qkeys_cons] at hid
      have h1 : tid ≠ id := fun h => hid (h ▸ List.mem_cons_self _ _)
      have h2 : id ∉ qkeys rest := fun h => hid (List.mem_cons_of_mem _ h)
      rw [aux_cons]
      simp only [evsFor_append]
      rw [ih _ id h2, List.append_nil]
      simp only [evsFor, List.filter_eq_nil_iff]
      intro ev hev
      simp only [decide_eq_true_eq]
      rw [processEntry_events_tileId hev]
      exact h1

theorem aux_events_mem {α : Type} (resp : Responses α)
    (ss : List (String × Entry α)) :
    ∀ (q : QMap α) (id : String) (e : Entry α),
      (qkeys ss).Nodup → (id, e) ∈ ss →
      evsFor id (processCycleAux resp ss q).2 = entryEvents resp id e := by
  induction ss with
  | nil => intro q id e _ hm; simp at hm
  | cons hd rest ih =>
      obtain ⟨tid, e0⟩ := hd
      intro q id e hss hm
      rw [qkeys_cons, List.nodup_cons] at hss
      rw [aux_cons]
      simp only [evsFor_append]
      rcases List.mem_cons.mp hm with h1 | h1
      · have hid : id = tid := congrArg Prod.fst h1
        have he : e = e0 := congrArg Prod.snd h1
        subst hid
        subst he
        rw [aux_events_not_mem resp rest _ id hss.1, List.append_nil]
        have hall : evsFor id (processEntry resp id e q).2 =
            (processEntry resp id e q).2 := by
          simp only [evsFor, List.filter_eq_self]
          intro ev hev
          simp only [decide_eq_true_eq]
          exact processEntry_events_tileId hev
        rw [hall, processEntry_snd]
      · have h1' : tid ≠ id := by
          intro h
          subst h
          exact hss.1 (mem_qkeys_of_mem h1)
        have hhead : evsFor id (processEntry resp tid e0 q).2 = [] := by
          simp only [evsFor, List.filter_eq_nil_iff]
          intro ev hev
          simp only [decide_eq_true_eq]
          rw [processEntry_events_tileId hev]
          exact h1'
        rw [hhead, List.nil_append]
        exact ih _ id e hss.2 h1

theorem aux_apply_mem {α : Type} (resp : Responses α)
    (ss : List (String × Entry α)) :
    ∀ (q : QMap α) (id : String) (pl : List α) (r : Except Unit (List α)),
      Ev.applyCall id pl r ∈ (processCycleAux resp ss q).2 →
      ∃ e : Entry α, (id, e) ∈ ss ∧ pl = e.questions := by
  induction ss with
  | nil => intro q id pl r hm; simp [aux_nil] at hm
  | cons hd rest ih =>
      obtain ⟨tid, e0⟩ := hd
      intro q id pl r hm
      rw [aux_cons] at hm
      rcases List.mem_append.mp hm with h1 | h1
      · obtain ⟨hid, hpl⟩ := processEntry_apply_payload h1
        subst hid
        exact ⟨e0, List.mem_cons_self _ _, hpl⟩
      · obtain ⟨e, hmem, hpl⟩ := ih _ id pl r h1
        exact ⟨e, List.mem_cons_of_mem _ hmem, hpl⟩

/-! Corollaries for `processCycle` (where the snapshot is the mapping). -/

theorem cycle_nodup {α : Type} (resp : Responses α) {q : QMap α}
    (hnd : (qkeys q).Nodup) : (qkeys (processCycle resp q).1).Nodup :=
  aux_nodup resp q q hnd

theorem cycle_lookup_some {α : Type} (resp : Responses α) {q : QMap α}
    {id : String} {e : Entry α} (hnd : (qkeys q).Nodup)
    (h : qlookup q id = some e) :
    qlookup (processCycle resp q).1 id = none ∨
      (qlookup (processCycle resp q).1 id = some (incEntry e) ∧
        e.attemptCount < attemptCeiling) :=
  aux_lookup_mem resp q q id e hnd hnd (qlookup_some_mem h)

theorem cycle_lookup_none {α : Type} (resp : Responses α) {q : QMap α}
    {id : String} (h : qlookup q id = none) :
    qlookup (processCycle resp q).1 id = none := by
  unfold processCycle
  rw [aux_lookup_not_mem resp q q id ((qlookup_eq_none_iff q id).mp h)]
  exact h

theorem cycle_events_some {α : Type} (resp : Responses α) {q : QMap α}
    {id : String} {e : Entry α} (hnd : (qkeys q).Nodup)
    (h : qlookup q id = some e) :
    evsFor id (processCycle resp q).2 = entryEvents resp id e :=
  aux_events_mem resp q q id e hnd (qlookup_some_mem h)

theorem cycle_events_none {α : Type} (resp : Responses α) {q : QMap α}
    {id : String} (h : qlookup q id = none) :
    evsFor id (processCycle resp q).2 = [] :=
  aux_events_not_mem resp q q id ((qlookup_eq_none_iff q id).mp h)

theorem cycle_apply_mem {α : Type} (resp : Responses α) {q : QMap α}
    {id : String} {pl : List α} {r : Except Unit (List α)}
    (hm : Ev.applyCall id pl r ∈ (processCycle resp q).2) :
    ∃ e : Entry α, (id, e) ∈ q ∧ pl = e.questions :=
  aux_apply_mem resp q q id pl r hm

/-! Lemmas about repeated cycles. -/

theorem runFrom_zero {α : Type} (sched : Nat → Responses α) (i : Nat)
    (q : QMap α) : runFrom sched i 0 q = (q, []) := rfl

theorem runFrom_succ_peel {α : Type} (sched : Nat → Responses α)
    (i n : Nat) (q : QMap α) :
    runFrom sched i (n + 1) q =
      ((runFrom sched (i + 1) n (processCycle (sched i) q).1).1,
        (processCycle (sched i) q).2 ++
          (runFrom sched (i + 1) n (processCycle (sched i) q).1).2) := rfl

theorem runFrom_empty {α : Type} (sched : Nat → Responses α) :
    ∀ (n i : Nat), runFrom sched i n ([] : QMap α) = ([], []) := by
  intro n
  induction n with
  | zero => intro i; rfl
  | succ n ih =>
      intro i
      rw [runFrom_succ_peel]
      have hc : processCycle (sched i) ([] : QMap α) = ([], []) := rfl
      rw [hc]
      simp [ih (i + 1)]

theorem runFrom_add_fst {α : Type} (sched : Nat → Responses α) :
    ∀ (m i n : Nat) (q : QMap α),
      (runFrom sched i (m + n) q).1 =
        (runFrom sched (i + m) n (runFrom sched i m q).1).1 := by
  intro m
  induction m with
  | zero => intro i n q; simp [runFrom_zero]
  | succ m ih =>
      intro i n q
      have h1 : m + 1 + n = (m + n) + 1 := by omega
      rw [h1]
      rw [runFrom_succ_peel sched i (m + n) q]
      rw [runFrom_succ_peel sched i m q]
      have h2 : i + 1 + m = i + (m + 1) := by omega
      rw [ih (i + 1) n (processCycle (sched i) q).1, h2]

theorem runFrom_add_snd {α : Type} (sched : Nat → Responses α) :
    ∀ (m i n : Nat) (q : QMap α),
      (runFrom sched i (m + n) q).2 =
        (runFrom sched i m q).2 ++
          (runFrom sched (i + m) n (runFrom sched i m q).1).2 := by
  intro m
  induction m with
  | zero => intro i n q; simp [runFrom_zero]
  | succ m ih =>
      intro i n q
      have h1 : m + 1 + n = (m + n) + 1 := by omega
      rw [h1]
      rw [runFrom_succ_peel sched i (m + n) q]
      rw [runFrom_succ_peel sched i m q]
      have h2 : i + 1 + m = i + (m + 1) := by omega
      rw [ih (i + 1) n (processCycle (sched i) q).1, h2]
      simp [List.append_assoc]

/-! Computation of one cycle on a one-entry mapping. -/

theorem cycle_singleton {α : Type} (resp : Responses α) (id : String)
    (e : Entry α) :
    processCycle resp [(id, e)] = processEntry resp id e [(id, e)] := by
  unfold processCycle
  rw [aux_cons, aux_nil]
  simp

theorem bumpAttempt_singleton {α : Type} (id : String) (e : Entry α) :
    bumpAttempt [(id, e)] id e = [(id, incEntry e)] := by
  rw [bumpAttempt_some e (qlookup_cons_self id e []), qinsert_cons_self]

theorem cycle_singleton_ceiling {α : Type} (resp : Responses α)
    (id : String) (e : Entry α) (h : attemptCeiling ≤ e.attemptCount) :
    processCycle resp [(id, e)] = ([], []) := by
  rw [cycle_singleton, pe_ceiling resp id e [(id, e)] h, qerase_cons_self]

theorem cycle_singleton_badKind {α : Type} (resp : Responses α)
    (id : String) (e : Entry α) (h1 : e.attemptCount < attemptCeiling)
    (h2 : ¬(e.tileType = "KA" ∨ e.tileType = "MAS")) :
    processCycle resp [(id, e)] = ([], []) := by
  rw [cycle_singleton, pe_badKind resp id e [(id, e)] h1 h2,
    bumpAttempt_singleton, qerase_cons_self]

theorem cycle_singleton_notReady {α : Type} (resp : Responses α)
    (id : String) (e : Entry α) (v : Option String)
    (h1 : e.attemptCount < attemptCeiling)
    (h2 : e.tileType = "KA" ∨ e.tileType = "MAS")
    (hs : statusOf resp e.tileType e.manager id = Except.ok v)
    (hv : v ≠ some ONLINE) :
    processCycle resp [(id, e)] =
      ([(id, incEntry e)], [Ev.statusCheck id e.tileType (Except.ok v)]) := by
  rw [cycle_singleton, pe_notReady resp id e [(id, e)] v h1 h2 hs hv,
    bumpAttempt_singleton]

theorem cycle_singleton_statusError {α : Type} (resp : Responses α)
    (id : String) (e : Entry α) (u : Unit)
    (h1 : e.attemptCount < attemptCeiling)
    (h2 : e.tileType = "KA" ∨ e.tileType = "MAS")
    (hs : statusOf resp e.tileType e.manager id = Except.error u) :
    processCycle resp [(id, e)] =
      ([], [Ev.statusCheck id e.tileType (Except.error u)]) := by
  rw [cycle_singleton, pe_statusError resp id e [(id, e)] u h1 h2 hs,
    bumpAttempt_singleton, qerase_cons_self]

theorem cycle_singleton_readyOk {α : Type} (resp : Responses α)
    (id : String) (e : Entry α) (created : List α)
    (h1 : e.attemptCount < attemptCeiling)
    (h2 : e.tileType = "KA" ∨ e.tileType = "MAS")
    (hs : statusOf resp e.tileType e.manager id = Except.ok (some ONLINE))
    (ha : applyOf resp e.tileType e.manager id e.questions =
            Except.ok created) :
    processCycle resp [(id, e)] =
      ([], [Ev.statusCheck id e.tileType (Except.ok (some ONLINE)),
            Ev.applyCall id e.questions (Except.ok created)]) := by
  rw [cycle_singleton, pe_readyOk resp id e [(id, e)] created h1 h2 hs ha,
    bumpAttempt_singleton, qerase_cons_self]

theorem cycle_singleton_readyError {α : Type} (resp : Responses α)
    (id : String) (e : Entry α) (u : Unit)
    (h1 : e.attemptCount < attemptCeiling)
    (h2 : e.tileType = "KA" ∨ e.tileType = "MAS")
    (hs : statusOf resp e.tileType e.manager id = Except.ok (some ONLINE))
    (ha : applyOf resp e.tileType e.manager id e.questions =
            Except.error u) :
    processCycle resp [(id, e)] =
      ([], [Ev.statusCheck id e.tileType (Except.ok (some ONLINE)),
            Ev.applyCall id e.questions (Except.error u)]) := by
  rw [cycle_singleton, pe_readyError resp id e [(id, e)] u h1 h2 hs ha,
    bumpAttempt_singleton, qerase_cons_self]

/-- A one-entry queue whose status checks keep answering with a non-ready
value survives `n` cycles, its attempt count increasing by one per cycle,
and no batch apply happens. -/
theorem run_notReady {α : Type} (sched : Nat → Responses α) (id : String)
    (mgr : Nat) (payload : List α) (kind : String) (t0 : Nat)
    (hkind : kind = "KA" ∨ kind = "MAS") :
    ∀ (n i a : Nat), a + n ≤ attemptCeiling →
      (∀ k, i ≤ k → k < i + n →
        ∃ v, statusOf (sched k) kind mgr id = Except.ok v ∧
          v ≠ some ONLINE) →
      (runFrom sched i n [(id, ⟨mgr, payload, kind, t0, a⟩)]).1 =
          [(id, ⟨mgr, payload, kind, t0, a + n⟩)] ∧
      applyCalls
          (runFrom sched i n [(id, ⟨mgr, payload, kind, t0, a⟩)]).2 = [] := by
  intro n
  induction n with
  | zero => intro i a _ _; exact ⟨rfl, rfl⟩
  | succ n ih =>
      intro i a hle hst
      obtain ⟨v, hv, hvne⟩ := hst i (Nat.le_refl i) (by omega)
      have h1 : (Entry.mk mgr payload kind t0 a : Entry α).attemptCount <
          attemptCeiling := by
        show a < attemptCeiling
        omega
      have hcyc := cycle_singleton_notReady (sched i) id
        (⟨mgr, payload, kind, t0, a⟩ : Entry α) v h1 hkind hv hvne
      rw [runFrom_succ_peel, hcyc]
      have hinc : incEntry (⟨mgr, payload, kind, t0, a⟩ : Entry α) =
          ⟨mgr, payload, kind, t0, a + 1⟩ := rfl
      rw [hinc]
      obtain ⟨ihq, ihe⟩ := ih (i + 1) (a + 1) (by omega)
        (fun k hk1 hk2 => hst k (by omega) (by omega))
      constructor
      · rw [ihq]
        have : a + 1 + n = a + (n + 1) := by omega
        rw [this]
      · rw [applyCalls_append, ihe]
        rfl

theorem applyCalls_nil {α : Type} : applyCalls ([] : List (Ev α)) = [] := rfl

theorem applyCalls_cons_status {α : Type} (id ty : String)
    (r : Except Unit (Option String)) (l : List (Ev α)) :
    applyCalls (Ev.statusCheck id ty r :: l) = applyCalls l := rfl

theorem applyCalls_cons_apply {α : Type} (id : String) (pl : List α)
    (r : Except Unit (List α)) (l : List (Ev α)) :
    applyCalls (Ev.applyCall id pl r :: l) = (id, pl) :: applyCalls l := rfl

/-! The claims. -/

/-- C1: for every entry enqueued with a valid kind (KA or MAS), if the
status check returns the ready sentinel on the Nth poll cycle with
N at most the ceiling and the batch apply succeeds, then after those N
cycles the entry is removed from the queue mapping and the batch-apply
capability was invoked exactly once, with the full original payload passed
at enqueue time. -/
theorem claim1_ready_applied_once {α : Type} (sched : Nat → Responses α)
    (id : String) (mgr : Nat) (payload : List α) (kind : String) (t0 : Nat)
    (N : Nat) (created : List α) (hN1 : 1 ≤ N) (hN : N ≤ attemptCeiling)
    (hkind : kind = "KA" ∨ kind = "MAS")
    (hpre : ∀ k, k + 1 < N →
      ∃ v, statusOf (sched k) kind mgr id = Except.ok v ∧ v ≠ some ONLINE)
    (hready : statusOf (sched (N - 1)) kind mgr id =
      Except.ok (some ONLINE))
    (happly : applyOf (sched (N - 1)) kind mgr id payload =
      Except.ok created) :
    (runFrom sched 0 N (enqueue [] id mgr payload kind t0)).1 = [] ∧
    applyCalls (runFrom sched 0 N (enqueue [] id mgr payload kind t0)).2 =
      [(id, payload)] := by
  obtain ⟨M, rfl⟩ : ∃ M, N = M + 1 := ⟨N - 1, by omega⟩
  have hM1 : M + 1 - 1 = M := by omega
  rw [hM1] at hready happly
  have henq : enqueue ([] : QMap α) id mgr payload kind t0 =
      [(id, ⟨mgr, payload, kind, t0, 0⟩)] := rfl
  rw [henq]
  obtain ⟨hq, he⟩ := run_notReady sched id mgr payload kind t0 hkind M 0 0
    (by omega) (fun k _ hk2 => hpre k (by omega))
  have hattempt : (⟨mgr, payload, kind, t0, 0 + M⟩ : Entry α).attemptCount <
      attemptCeiling := by
    show 0 + M < attemptCeiling
    omega
  have hfin := cycle_singleton_readyOk (sched (0 + M)) id
    (⟨mgr, payload, kind, t0, 0 + M⟩ : Entry α) created hattempt hkind
    (by simpa using hready) (by simpa using happly)
  constructor
  · rw [runFrom_add_fst sched M 0 1, hq, runFrom_succ_peel, hfin]
    simp [runFrom_zero]
  · rw [runFrom_add_snd sched M 0 1, applyCalls_append, he, hq,
      runFrom_succ_peel, hfin]
    simp [runFrom_zero, applyCalls_append, applyCalls_cons_status,
      applyCalls_cons_apply, applyCalls_nil]

/-- C2: for every entry whose status check never returns the ready sentinel
and never raises, the entry survives with attempt count `k` after `k ≤ 30`
cycles (so exactly 30 increments happen), is removed from the queue mapping
on the following cycle and stays removed, and the batch-apply capability is
never invoked for it. -/
theorem claim2_never_ready_removed_after_ceiling {α : Type}
    (sched : Nat → Responses α) (id : String) (mgr : Nat)
    (payload : List α) (kind : String) (t0 : Nat)
    (hkind : kind = "KA" ∨ kind = "MAS")
    (hst : ∀ k, ∃ v, statusOf (sched k) kind mgr id = Except.ok v ∧
      v ≠ some ONLINE) :
    (∀ k, k ≤ attemptCeiling →
      (runFrom sched 0 k (enqueue [] id mgr payload kind t0)).1 =
        [(id, ⟨mgr, payload, kind, t0, k⟩)]) ∧
    (∀ m, attemptCeiling + 1 ≤ m →
      (runFrom sched 0 m (enqueue [] id mgr payload kind t0)).1 = []) ∧
    (∀ m, applyCalls
      (runFrom sched 0 m (enqueue [] id mgr payload kind t0)).2 = []) := by
  have henq : enqueue ([] : QMap α) id mgr payload kind t0 =
      [(id, ⟨mgr, payload, kind, t0, 0⟩)] := rfl
  rw [henq]
  have hrunk : ∀ k, k ≤ attemptCeiling →
      (runFrom sched 0 k [(id, ⟨mgr, payload, kind, t0, 0⟩)]).1 =
        [(id, ⟨mgr, payload, kind, t0, k⟩)] ∧
      applyCalls
        (runFrom sched 0 k [(id, ⟨mgr, payload, kind, t0, 0⟩)]).2 = [] := by
    intro k hk
    obtain ⟨hq, he⟩ := run_notReady sched id mgr payload kind t0 hkind k 0 0
      (by omega) (fun j _ _ => hst j)
    constructor
    · simpa using hq
    · exact he
  have h30 := hrunk attemptCeiling (Nat.le_refl _)
  have hceil := cycle_singleton_ceiling (sched (0 + attemptCeiling)) id
    (⟨mgr, payload, kind, t0, attemptCeiling⟩ : Entry α) (Nat.le_refl _)
  have h31q : (runFrom sched 0 (attemptCeiling + 1)
      [(id, ⟨mgr, payload, kind, t0, 0⟩)]).1 = [] := by
    rw [runFrom_add_fst sched attemptCeiling 0 1, h30.1,
      runFrom_succ_peel, hceil]
    simp [runFrom_zero]
  have h31e : applyCalls (runFrom sched 0 (attemptCeiling + 1)
      [(id, ⟨mgr, payload, kind, t0, 0⟩)]).2 = [] := by
    rw [runFrom_add_snd sched attemptCeiling 0 1, applyCalls_append,
      h30.2, h30.1, runFrom_succ_peel, hceil]
    simp [runFrom_zero, applyCalls_append, applyCalls_nil]
  refine ⟨fun k hk => (hrunk k hk).1, ?_, ?_⟩
  · intro m hm
    obtain ⟨r, rfl⟩ : ∃ r, m = (attemptCeiling + 1) + r :=
      ⟨m - (attemptCeiling + 1), by omega⟩
    rw [runFrom_add_fst sched (attemptCeiling + 1) 0 r, h31q,
      runFrom_empty]
  · intro m
    rcases le_or_lt m attemptCeiling with hm | hm
    · exact (hrunk m hm).2
    · obtain ⟨r, rfl⟩ : ∃ r, m = (attemptCeiling + 1) + r :=
        ⟨m - (attemptCeiling + 1), by omega⟩
      rw [runFrom_add_snd sched (attemptCeiling + 1) 0 r, applyCalls_append,
        h31e, h31q, runFrom_empty]
      rfl

/-- C3: for every entry, if the status check or the batch-apply call raises
an exception on attempt K with K below the ceiling (earlier cycles being
ordinary not-ready polls), the entry is removed from the queue mapping
during that same cycle, and no further capability call is ever made for it:
in every longer run the queue stays empty and the entry's event trace never
grows past cycle K. -/
theorem claim3_exception_terminal {α : Type} (sched : Nat → Responses α)
    (id : String) (mgr : Nat) (payload : List α) (kind : String) (t0 : Nat)
    (K : Nat) (hK1 : 1 ≤ K) (hK : K < attemptCeiling)
    (hkind : kind = "KA" ∨ kind = "MAS")
    (hpre : ∀ k, k + 1 < K →
      ∃ v, statusOf (sched k) kind mgr id = Except.ok v ∧ v ≠ some ONLINE)
    (hexc : statusOf (sched (K - 1)) kind mgr id = Except.error () ∨
      (statusOf (sched (K - 1)) kind mgr id = Except.ok (some ONLINE) ∧
        applyOf (sched (K - 1)) kind mgr id payload = Except.error ())) :
    (runFrom sched 0 K (enqueue [] id mgr payload kind t0)).1 = [] ∧
    ∀ m, K ≤ m →
      (runFrom sched 0 m (enqueue [] id mgr payload kind t0)).1 = [] ∧
      evsFor id (runFrom sched 0 m (enqueue [] id mgr payload kind t0)).2 =
        evsFor id
          (runFrom sched 0 K (enqueue [] id mgr payload kind t0)).2 := by
  obtain ⟨M, rfl⟩ : ∃ M, K = M + 1 := ⟨K - 1, by omega⟩
  have hM1 : M + 1 - 1 = M := by omega
  rw [hM1] at hexc
  have henq : enqueue ([] : QMap α) id mgr payload kind t0 =
      [(id, ⟨mgr, payload, kind, t0, 0⟩)] := rfl
  rw [henq]
  obtain ⟨hq, he⟩ := run_notReady sched id mgr payload kind t0 hkind M 0 0
    (by omega) (fun k _ hk2 => hpre k (by omega))
  simp only [Nat.zero_add] at hq
  have hattempt : (⟨mgr, payload, kind, t0, M⟩ : Entry α).attemptCount <
      attemptCeiling := by
    show M < attemptCeiling
    omega
  have hcycq : (processCycle (sched M)
      [(id, (⟨mgr, payload, kind, t0, M⟩ : Entry α))]).1 = [] := by
    rcases hexc with h | ⟨h, ha⟩
    · rw [cycle_singleton_statusError (sched M) id _ () hattempt
        hkind h]
    · rw [cycle_singleton_readyError (sched M) id _ () hattempt
        hkind h ha]
  have hKq : (runFrom sched 0 (M + 1)
      [(id, ⟨mgr, payload, kind, t0, 0⟩)]).1 = [] := by
    rw [runFrom_add_fst sched M 0 1, hq, runFrom_succ_peel]
    simp [runFrom_zero, hcycq]
  refine ⟨hKq, fun m hm => ?_⟩
  obtain ⟨r, rfl⟩ : ∃ r, m = (M + 1) + r := ⟨m - (M + 1), by omega⟩
  constructor
  · rw [runFrom_add_fst sched (M + 1) 0 r, hKq, runFrom_empty]
  · rw [runFrom_add_snd sched (M + 1) 0 r, hKq, runFrom_empty]
    simp

/-! Concrete capability environments used to witness the claims. -/

def w1respNotReady : Responses Nat :=
  ⟨fun _ _ => Except.ok (some "PROVISIONING"),
   fun _ _ => Except.ok (some "PROVISIONING"),
   fun _ _ p => Except.ok p, fun _ _ p => Except.ok p⟩

def w1respReady : Responses Nat :=
  ⟨fun _ _ => Except.ok (some "ONLINE"),
   fun _ _ => Except.ok (some "ONLINE"),
   fun _ _ p => Except.ok p, fun _ _ p => Except.ok p⟩

def w1sched : Nat → Responses Nat := fun k =>
  if k = 0 then w1respNotReady else w1respReady

theorem claim1_witness :
    (runFrom w1sched 0 2 (enqueue [] "ka-1" 0 [1, 2] "KA" 5)).1 = [] ∧
    applyCalls (runFrom w1sched 0 2 (enqueue [] "ka-1" 0 [1, 2] "KA" 5)).2 =
      [("ka-1", [1, 2])] :=
  claim1_ready_applied_once w1sched "ka-1" 0 [1, 2] "KA" 5 2 [1, 2]
    (by decide) (by decide) (Or.inl rfl)
    (fun k hk => by
      have hk0 : k = 0 := by omega
      subst hk0
      exact ⟨some "PROVISIONING", by decide, by decide⟩)
    (by decide) (by decide)

def w2resp : Responses Nat :=
  ⟨fun _ _ => Except.ok (some "OFFLINE"),
   fun _ _ => Except.ok (some "OFFLINE"),
   fun _ _ p => Except.ok p, fun _ _ p => Except.ok p⟩

def w2sched : Nat → Responses Nat := fun _ => w2resp

theorem claim2_witness :
    (runFrom w2sched 0 30 (enqueue [] "mas-9" 3 [7] "MAS" 0)).1 =
      [("mas-9", ⟨3, [7], "MAS", 0, 30⟩)] ∧
    (runFrom w2sched 0 31 (enqueue [] "mas-9" 3 [7] "MAS" 0)).1 = [] ∧
    applyCalls
      (runFrom w2sched 0 31 (enqueue [] "mas-9" 3 [7] "MAS" 0)).2 = [] := by
  obtain ⟨h1, h2, h3⟩ := claim2_never_ready_removed_after_ceiling w2sched
    "mas-9" 3 [7] "MAS" 0 (Or.inr rfl)
    (fun k => ⟨some "OFFLINE", rfl, by decide⟩)
  exact ⟨h1 30 (by decide), h2 31 (by decide), h3 31⟩

def w3respNotReady : Responses Nat :=
  ⟨fun _ _ => Except.ok (some "NOT_READY"),
   fun _ _ => Except.ok (some "NOT_READY"),
   fun _ _ p => Except.ok p, fun _ _ p => Except.ok p⟩

def w3respRaise : Responses Nat :=
  ⟨fun _ _ => Except.error (), fun _ _ => Except.error (),
   fun _ _ _ => Except.error (), fun _ _ _ => Except.error ()⟩

def w3sched : Nat → Responses Nat := fun k =>
  if k = 0 then w3respNotReady else w3respRaise

theorem claim3_witness :
    (runFrom w3sched 0 2 (enqueue [] "ka-7" 1 [4, 5] "KA" 9)).1 = [] ∧
    (runFrom w3sched 0 5 (enqueue [] "ka-7" 1 [4, 5] "KA" 9)).1 = [] ∧
    evsFor "ka-7"
        (runFrom w3sched 0 5 (enqueue [] "ka-7" 1 [4, 5] "KA" 9)).2 =
      evsFor "ka-7"
        (runFrom w3sched 0 2 (enqueue [] "ka-7" 1 [4, 5] "KA" 9)).2 := by
  obtain ⟨h1, h2⟩ := claim3_exception_terminal w3sched "ka-7" 1 [4, 5] "KA"
    9 2 (by decide) (by decide) (Or.inl rfl)
    (fun k hk => by
      have hk0 : k = 0 := by omega
      subst hk0
      exact ⟨some "NOT_READY", by decide, by decide⟩)
    (Or.inl (by decide))
  exact ⟨h1, (h2 5 (by decide)).1, (h2 5 (by decide)).2⟩

theorem applyCalls_mem_exists {α : Type} {evs : List (Ev α)} {id : String}
    {pl : List α} (h : (id, pl) ∈ applyCalls evs) :
    ∃ r, Ev.applyCall id pl r ∈ evs := by
  induction evs with
  | nil => simp [applyCalls_nil] at h
  | cons ev rest ih =>
      cases ev with
      | statusCheck a b c =>
          rw [applyCalls_cons_status] at h
          obtain ⟨r, hr⟩ := ih h
          exact ⟨r, List.mem_cons_of_mem _ hr⟩
      | applyCall a b c =>
          rw [applyCalls_cons_apply] at h
          rcases List.mem_cons.mp h with h1 | h1
          · have ha : id = a := congrArg Prod.fst h1
            have hb : pl = b := congrArg Prod.snd h1
            subst ha
            subst hb
            exact ⟨c, List.mem_cons_self _ _⟩
          · obtain ⟨r, hr⟩ := ih h1
            exact ⟨r, List.mem_cons_of_mem _ hr⟩

/-- If every entry stored under `id` carries payload `p`, then every
batch-apply call for `id` in any number of cycles passes `p`. -/
theorem run_payload_inv {α : Type} (sched : Nat → Responses α)
    (p : List α) (id : String) :
    ∀ (n j : Nat) (q : QMap α), (qkeys q).Nodup →
      (∀ e, qlookup q id = some e → e.questions = p) →
      ∀ pl, (id, pl) ∈ applyCalls (runFrom sched j n q).2 → pl = p := by
  intro n
  induction n with
  | zero => intro j q _ _ pl hm; simp [runFrom_zero, applyCalls_nil] at hm
  | succ n ih =>
      intro j q hnd hinv pl hm
      rw [runFrom_succ_peel] at hm
      simp only [applyCalls_append, List.mem_append] at hm
      rcases hm with h1 | h1
      · obtain ⟨r, hr⟩ := applyCalls_mem_exists h1
        obtain ⟨e, hmem, hpl⟩ := cycle_apply_mem (sched j) hr
        rw [hpl]
        exact hinv e (mem_qlookup_eq hnd hmem)
      · refine ih (j + 1) _ (cycle_nodup _ hnd) ?_ pl h1
        intro e' he'
        cases hq : qlookup q id with
        | none => rw [cycle_lookup_none _ hq] at he'; cases he'
        | some e0 =>
            rcases cycle_lookup_some (sched j) hnd hq with hnone | ⟨hsome, _⟩
            · rw [hnone] at he'; cases he'
            · rw [hsome] at he'
              obtain rfl : incEntry e0 = e' := Option.some.inj he'
              show (incEntry e0).questions = p
              have hqq : e0.questions = p := hinv e0 hq
              simpa [incEntry] using hqq

/-- C4: re-enqueuing a resource id before it is processed replaces the
stored entry: afterwards the mapping holds exactly one entry for that id,
with the new payload, attempt count 0 and the fresh timestamp, and every
batch-apply call ever made for that id passes the new payload (so the
previously queued payload is never applied). -/
theorem claim4_reenqueue_replaces {α : Type} (q : QMap α)
    (hnd : (qkeys q).Nodup) (id : String) (m1 m2 : Nat) (p1 p2 : List α)
    (k1 k2 : String) (t1 t2 : Nat) (sched : Nat → Responses α) (j n : Nat) :
    qlookup (enqueue (enqueue q id m1 p1 k1 t1) id m2 p2 k2 t2) id =
      some ⟨m2, p2, k2, t2, 0⟩ ∧
    (qkeys (enqueue (enqueue q id m1 p1 k1 t1) id m2 p2 k2 t2)).count id =
      1 ∧
    ∀ pl, (id, pl) ∈ applyCalls
        (runFrom sched j n
          (enqueue (enqueue q id m1 p1 k1 t1) id m2 p2 k2 t2)).2 →
      pl = p2 := by
  have hnd2 : (qkeys (enqueue (enqueue q id m1 p1 k1 t1) id m2 p2
      k2 t2)).Nodup := by
    unfold enqueue
    exact qkeys_nodup_qinsert id _ (qkeys_nodup_qinsert id _ hnd)
  have hlook : qlookup (enqueue (enqueue q id m1 p1 k1 t1) id m2 p2 k2
      t2) id = some ⟨m2, p2, k2, t2, 0⟩ := qlookup_qinsert_self _ id _
  refine ⟨hlook, ?_, ?_⟩
  · exact List.count_eq_one_of_mem hnd2
      (mem_qkeys_of_mem (qlookup_some_mem hlook))
  · refine run_payload_inv sched p2 id n j _ hnd2 ?_
    intro e he
    rw [hlook] at he
    obtain rfl : (⟨m2, p2, k2, t2, 0⟩ : Entry α) = e := Option.some.inj he
    rfl

/-- C5: while an entry survives a cycle its attempt count grows by exactly
one (so it is monotonically non-decreasing) and never exceeds the ceiling;
on the cycle whose snapshot shows the attempt count at the ceiling, the
entry is removed during that same cycle. -/
theorem claim5_attempt_monotone_bounded {α : Type} (resp : Responses α)
    (q : QMap α) (hnd : (qkeys q).Nodup) (id : String) (e : Entry α)
    (h : qlookup q id = some e) :
    (∀ e', qlookup (processCycle resp q).1 id = some e' →
      e'.attemptCount = e.attemptCount + 1 ∧
      e.attemptCount ≤ e'.attemptCount ∧
      e'.attemptCount ≤ attemptCeiling) ∧
    (attemptCeiling ≤ e.attemptCount →
      qlookup (processCycle resp q).1 id = none) := by
  constructor
  · intro e' he'
    rcases cycle_lookup_some resp hnd h with hnone | ⟨hsome, hlt⟩
    · rw [hnone] at he'
      cases he'
    · rw [hsome] at he'
      obtain rfl : incEntry e = e' := Option.some.inj he'
      refine ⟨rfl, ?_, ?_⟩
      · show e.attemptCount ≤ e.attemptCount + 1
        omega
      · show e.attemptCount + 1 ≤ attemptCeiling
        omega
  · intro hge
    rcases cycle_lookup_some resp hnd h with hnone | ⟨_, hlt⟩
    · exact hnone
    · omega

/-- C6: with a pending entry of valid kind below the ceiling, the
batch-apply capability is invoked in this cycle exactly when the status
check returns a value equal to `some "ONLINE"` (an exact string match); for
any other returned value, `None` included, the entry stays in the mapping
with its attempt count incremented, and a raised status check triggers no
apply either. -/
theorem claim6_exact_sentinel_match {α : Type} (resp : Responses α)
    (tid : String) (e : Entry α) (q : QMap α)
    (h1 : e.attemptCount < attemptCeiling)
    (h2 : e.tileType = "KA" ∨ e.tileType = "MAS")
    (hq : qlookup q tid = some e) :
    (∀ v, statusOf resp e.tileType e.manager tid = Except.ok v →
      ((applyCalls (processEntry resp tid e q).2 ≠ [] ↔ v = some ONLINE) ∧
       (v ≠ some ONLINE →
         qlookup (processEntry resp tid e q).1 tid =
           some (incEntry e)))) ∧
    (∀ u, statusOf resp e.tileType e.manager tid = Except.error u →
      applyCalls (processEntry resp tid e q).2 = []) := by
  constructor
  · intro v hs
    by_cases hv : v = some ONLINE
    · subst hv
      cases ha : applyOf resp e.tileType e.manager tid e.questions with
      | error u =>
          rw [pe_readyError resp tid e q u h1 h2 hs ha]
          refine ⟨⟨fun _ => rfl, fun _ => ?_⟩, fun hne => absurd rfl hne⟩
          simp [applyCalls_cons_status, applyCalls_cons_apply]
      | ok created =>
          rw [pe_readyOk resp tid e q created h1 h2 hs ha]
          refine ⟨⟨fun _ => rfl, fun _ => ?_⟩, fun hne => absurd rfl hne⟩
          simp [applyCalls_cons_status, applyCalls_cons_apply]
    · rw [pe_notReady resp tid e q v h1 h2 hs hv]
      refine ⟨⟨fun hne => absurd rfl hne, fun hv' => absurd hv' hv⟩,
        fun _ => ?_⟩
      rw [bumpAttempt_some e hq]
      exact qlookup_qinsert_self q tid (incEntry e)
  · intro u hs
    rw [pe_statusError resp tid e q u h1 h2 hs]
    rfl

/-- Agreement of two capability environments at one manager handle and tile
id: the status accessors return the same result and the batch-apply
capabilities behave the same on every payload. -/
def respAgree {α : Type} (r1 r2 : Responses α) (mgr : Nat)
    (id : String) : Prop :=
  r1.kaGetEndpointStatus mgr id = r2.kaGetEndpointStatus mgr id ∧
  r1.masGetEndpointStatus mgr id = r2.masGetEndpointStatus mgr id ∧
  (∀ pl, r1.kaAddExamplesBatch mgr id pl =
    r2.kaAddExamplesBatch mgr id pl) ∧
  (∀ pl, r1.masAddExamplesBatch mgr id pl =
    r2.masAddExamplesBatch mgr id pl)

theorem entryEvents_congr {α : Type} {r1 r2 : Responses α} {tid : String}
    {e : Entry α} (hag : respAgree r1 r2 e.manager tid) :
    entryEvents r1 tid e = entryEvents r2 tid e := by
  have hst : statusOf r1 e.tileType e.manager tid =
      statusOf r2 e.tileType e.manager tid := by
    unfold statusOf
    by_cases hk : e.tileType = "KA"
    · rw [if_pos hk, if_pos hk]
      exact hag.1
    · rw [if_neg hk, if_neg hk]
      exact hag.2.1
  have hap : ∀ pl, applyOf r1 e.tileType e.manager tid pl =
      applyOf r2 e.tileType e.manager tid pl := by
    intro pl
    unfold applyOf
    by_cases hk : e.tileType = "KA"
    · rw [if_pos hk, if_pos hk]
      exact hag.2.2.1 pl
    · rw [if_neg hk, if_neg hk]
      exact hag.2.2.2 pl
  unfold entryEvents
  by_cases h1 : attemptCeiling ≤ e.attemptCount
  · rw [pe_ceiling r1 tid e [] h1, pe_ceiling r2 tid e [] h1]
  · have h1' : e.attemptCount < attemptCeiling := Nat.not_le.mp h1
    by_cases h2 : e.tileType = "KA" ∨ e.tileType = "MAS"
    · cases hs : statusOf r2 e.tileType e.manager tid with
      | error u =>
          rw [pe_statusError r1 tid e [] u h1' h2 (hst.trans hs),
            pe_statusError r2 tid e [] u h1' h2 hs]
      | ok v =>
          by_cases hv : v = some ONLINE
          · subst hv
            cases ha : applyOf r2 e.tileType e.manager tid e.questions with
            | error u =>
                rw [pe_readyError r1 tid e [] u h1' h2 (hst.trans hs)
                    ((hap _).trans ha),
                  pe_readyError r2 tid e [] u h1' h2 hs ha]
            | ok created =>
                rw [pe_readyOk r1 tid e [] created h1' h2 (hst.trans hs)
                    ((hap _).trans ha),
                  pe_readyOk r2 tid e [] created h1' h2 hs ha]
          · rw [pe_notReady r1 tid e [] v h1' h2 (hst.trans hs) hv,
              pe_notReady r2 tid e [] v h1' h2 hs hv]
    · rw [pe_badKind r1 tid e [] h1' h2, pe_badKind r2 tid e [] h1' h2]

theorem entryEvents_statusCheck_mem {α : Type} (resp : Responses α)
    (tid : String) (e : Entry α) (h1 : e.attemptCount < attemptCeiling)
    (h2 : e.tileType = "KA" ∨ e.tileType = "MAS") :
    ∃ res, Ev.statusCheck tid e.tileType res ∈ entryEvents resp tid e := by
  unfold entryEvents
  cases hs : statusOf resp e.tileType e.manager tid with
  | error u =>
      rw [pe_statusError resp tid e [] u h1 h2 hs]
      exact ⟨Except.error u, List.mem_cons_self _ _⟩
  | ok v =>
      by_cases hv : v = some ONLINE
      · subst hv
        cases ha : applyOf resp e.tileType e.manager tid e.questions with
        | error u =>
            rw [pe_readyError resp tid e [] u h1 h2 hs ha]
            exact ⟨Except.ok (some ONLINE), List.mem_cons_self _ _⟩
        | ok created =>
            rw [pe_readyOk resp tid e [] created h1 h2 hs ha]
            exact ⟨Except.ok (some ONLINE), List.mem_cons_self _ _⟩
      · rw [pe_notReady resp tid e [] v h1 h2 hs hv]
        exact ⟨Except.ok v, List.mem_cons_self _ _⟩

/-- C7: within one poll cycle over a snapshot with distinct keys, an
entry's capability calls depend only on the responses at its own manager
and tile id: changing how the environment treats the other entries (for
example making their status checks or applies raise) leaves this entry's
event trace unchanged, and its status check still occurs whenever its
kind is valid and its attempt count is below the ceiling. -/
theorem claim7_per_entry_isolation {α : Type} (r1 r2 : Responses α)
    (q : QMap α) (hnd : (qkeys q).Nodup) (id : String) (e : Entry α)
    (hq : qlookup q id = some e) (hag : respAgree r1 r2 e.manager id) :
    evsFor id (processCycle r1 q).2 = evsFor id (processCycle r2 q).2 ∧
    (e.attemptCount < attemptCeiling →
      (e.tileType = "KA" ∨ e.tileType = "MAS") →
      ∃ res, Ev.statusCheck id e.tileType res ∈ (processCycle r1 q).2) := by
  constructor
  · rw [cycle_events_some r1 hnd hq, cycle_events_some r2 hnd hq]
    exact entryEvents_congr hag
  · intro h1 h2
    obtain ⟨res, hres⟩ := entryEvents_statusCheck_mem r1 id e h1 h2
    rw [← cycle_events_some r1 hnd hq] at hres
    simp only [evsFor] at hres
    exact ⟨res, (List.mem_filter.mp hres).1⟩

/-- C8: an entry whose resource kind is neither KA nor MAS is removed from
the queue mapping on its first processed cycle, and no capability call
(status check or batch apply) is ever made for it: the whole event trace of
any run beginning with its processing is empty. -/
theorem claim8_unknown_kind_terminal {α : Type} (sched : Nat → Responses α)
    (id : String) (mgr : Nat) (payload : List α) (kind : String) (t0 : Nat)
    (hk1 : kind ≠ "KA") (hk2 : kind ≠ "MAS") (n : Nat) (hn : 1 ≤ n) :
    (runFrom sched 0 n (enqueue [] id mgr payload kind t0)).1 = [] ∧
    (runFrom sched 0 n (enqueue [] id mgr payload kind t0)).2 = [] := by
  obtain ⟨r, rfl⟩ : ∃ r, n = 1 + r := ⟨n - 1, by omega⟩
  have henq : enqueue ([] : QMap α) id mgr payload kind t0 =
      [(id, ⟨mgr, payload, kind, t0, 0⟩)] := rfl
  rw [henq]
  have hbad := cycle_singleton_badKind (sched 0) id
    (⟨mgr, payload, kind, t0, 0⟩ : Entry α)
    (by show 0 < attemptCeiling; decide)
    (by
      intro h
      rcases h with h | h
      · exact hk1 h
      · exact hk2 h)
  have h1 : runFrom sched 0 1 [(id, (⟨mgr, payload, kind, t0, 0⟩ :
      Entry α))] = ([], []) := by
    rw [runFrom_succ_peel, hbad]
    simp [runFrom_zero]
  constructor
  · rw [runFrom_add_fst sched 1 0 r, h1]
    simp [runFrom_empty]
  · rw [runFrom_add_snd sched 1 0 r, h1]
    simp [runFrom_empty]

/-- C9: `stop()` removes or modifies no entry of the mapping: the mapping
after `stop()` is the mapping before it, a worker wake-up while stopped
processes nothing, and a subsequent `start()` resumes with exactly the same
mapping, so the next cycle continues each entry from its existing attempt
count (incrementing a surviving entry to its old count plus one, not
restarting from zero). -/
theorem claim9_stop_keeps_entries {α : Type} (s : QueueState α)
    (resp : Responses α) :
    (stopState s).queue = s.queue ∧
    stepState resp (stopState s) = (stopState s, []) ∧
    (startState (stopState s)).queue = s.queue ∧
    (startState (stopState s)).running = true ∧
    (stepState resp (startState (stopState s))).1.queue =
      (processCycle resp s.queue).1 ∧
    ∀ id e e', (qkeys s.queue).Nodup → qlookup s.queue id = some e →
      qlookup (stepState resp (startState (stopState s))).1.queue id =
        some e' →
      e'.attemptCount = e.attemptCount + 1 := by
  refine ⟨rfl, ?_, rfl, rfl, rfl, ?_⟩
  · simp [stepState, stopState]
  · intro id e e' hnd hq hq'
    have hq'' : qlookup (processCycle resp s.queue).1 id = some e' := hq'
    rcases cycle_lookup_some resp hnd hq with hnone | ⟨hsome, _⟩
    · rw [hnone] at hq''
      cases hq''
    · rw [hsome] at hq''
      obtain rfl : incEntry e = e' := Option.some.inj hq''
      rfl

/-- C10: on the cycle in which an entry's snapshot attempt count has
reached the ceiling, the queue makes no capability call for that entry
(no status check, no batch apply), does not increment its attempt count,
and deletes it from the live mapping, leaving every other id untouched. -/
theorem claim10_ceiling_drop_without_calls {α : Type} (resp : Responses α)
    (tid : String) (e : Entry α) (q : QMap α) (hnd : (qkeys q).Nodup)
    (h : attemptCeiling ≤ e.attemptCount) :
    qlookup (processEntry resp tid e q).1 tid = none ∧
    (processEntry resp tid e q).2 = [] ∧
    ∀ id, tid ≠ id →
      qlookup (processEntry resp tid e q).1 id = qlookup q id := by
  refine ⟨?_, ?_, ?_⟩
  · rw [pe_ceiling resp tid e q h]
    exact qlookup_qerase_self hnd
  · rw [pe_ceiling resp tid e q h]
  · intro id hne
    exact processEntry_lookup_ne resp e q hne

def w4resp : Responses Nat :=
  ⟨fun _ _ => Except.ok (some "ONLINE"),
   fun _ _ => Except.ok (some "ONLINE"),
   fun _ _ p => Except.ok p, fun _ _ p => Except.ok p⟩

def w4sched : Nat → Responses Nat := fun _ => w4resp

theorem claim4_witness :
    qlookup (enqueue (enqueue [] "t" 0 [1] "KA" 1) "t" 0 [2, 3] "KA" 2)
      "t" = some ⟨0, [2, 3], "KA", 2, 0⟩ ∧
    (qkeys (enqueue (enqueue [] "t" 0 [1] "KA" 1) "t" 0 [2, 3]
      "KA" 2)).count "t" = 1 ∧
    ("t", [1]) ∉ applyCalls
      (runFrom w4sched 0 1
        (enqueue (enqueue [] "t" 0 [1] "KA" 1) "t" 0 [2, 3] "KA" 2)).2 := by
  obtain ⟨h1, h2, h3⟩ := claim4_reenqueue_replaces ([] : QMap Nat)
    (by decide) "t" 0 0 [1] [2, 3] "KA" "KA" 1 2 w4sched 0 1
  exact ⟨h1, h2, fun hmem => absurd (h3 [1] hmem) (by decide)⟩

def w5resp : Responses Nat :=
  ⟨fun _ _ => Except.ok (some "PROVISIONING"),
   fun _ _ => Except.ok (some "PROVISIONING"),
   fun _ _ p => Except.ok p, fun _ _ p => Except.ok p⟩

theorem claim5_witness :
    ((⟨9, [2], "KA", 7, 4⟩ : Entry Nat).attemptCount =
        (⟨9, [2], "KA", 7, 3⟩ : Entry Nat).attemptCount + 1 ∧
      (⟨9, [2], "KA", 7, 3⟩ : Entry Nat).attemptCount ≤
        (⟨9, [2], "KA", 7, 4⟩ : Entry Nat).attemptCount ∧
      (⟨9, [2], "KA", 7, 4⟩ : Entry Nat).attemptCount ≤ attemptCeiling) ∧
    qlookup (processCycle w5resp [("b", ⟨9, [2], "KA", 7, 30⟩)]).1 "b" =
      none := by
  constructor
  · exact (claim5_attempt_monotone_bounded w5resp
      [("a", ⟨9, [2], "KA", 7, 3⟩)] (by decide) "a" ⟨9, [2], "KA", 7, 3⟩
      (by decide)).1 ⟨9, [2], "KA", 7, 4⟩ (by decide)
  · exact (claim5_attempt_monotone_bounded w5resp
      [("b", ⟨9, [2], "KA", 7, 30⟩)] (by decide) "b" ⟨9, [2], "KA", 7, 30⟩
      (by decide)).2 (by decide)

def w6resp : Responses Nat :=
  ⟨fun _ _ => Except.ok (some "online"),
   fun _ _ => Except.ok (some "online"),
   fun _ _ p => Except.ok p, fun _ _ p => Except.ok p⟩

theorem claim6_witness :
    (applyCalls (processEntry w6resp "k" ⟨2, [5], "KA", 0, 3⟩
        [("k", ⟨2, [5], "KA", 0, 3⟩)]).2 ≠ [] ↔
      (some "online" : Option String) = some ONLINE) ∧
    qlookup (processEntry w6resp "k" ⟨2, [5], "KA", 0, 3⟩
        [("k", ⟨2, [5], "KA", 0, 3⟩)]).1 "k" =
      some ⟨2, [5], "KA", 0, 4⟩ := by
  obtain ⟨hok, herr⟩ := claim6_exact_sentinel_match w6resp "k"
    ⟨2, [5], "KA", 0, 3⟩ [("k", ⟨2, [5], "KA", 0, 3⟩)] (by decide)
    (Or.inl rfl) (by decide)
  obtain ⟨hiff, hstay⟩ := hok (some "online") (by decide)
  exact ⟨hiff, hstay (by decide)⟩

def w7r1 : Responses Nat :=
  ⟨fun _ id => if id = "a" then Except.ok (some "PROVISIONING")
    else Except.error (),
   fun _ id => if id = "a" then Except.ok (some "NOT_READY")
    else Except.error (),
   fun _ _ p => Except.ok p, fun _ _ p => Except.ok p⟩

def w7r2 : Responses Nat :=
  ⟨fun _ id => if id = "a" then Except.ok (some "PROVISIONING")
    else Except.ok (some "OFFLINE"),
   fun _ id => if id = "a" then Except.ok (some "NOT_READY")
    else Except.ok none,
   fun _ _ p => Except.ok p, fun _ _ p => Except.ok p⟩

theorem claim7_witness :
    evsFor "a" (processCycle w7r1
        [("b", ⟨0, [9], "KA", 0, 1⟩), ("a", ⟨0, [4], "KA", 0, 1⟩)]).2 =
      evsFor "a" (processCycle w7r2
        [("b", ⟨0, [9], "KA", 0, 1⟩), ("a", ⟨0, [4], "KA", 0, 1⟩)]).2 ∧
    evsFor "a" (processCycle w7r1
        [("b", ⟨0, [9], "KA", 0, 1⟩), ("a", ⟨0, [4], "KA", 0, 1⟩)]).2 ≠
      [] := by
  obtain ⟨heq, hex⟩ := claim7_per_entry_isolation w7r1 w7r2
    [("b", ⟨0, [9], "KA", 0, 1⟩), ("a", ⟨0, [4], "KA", 0, 1⟩)] (by decide)
    "a" ⟨0, [4], "KA", 0, 1⟩ (by decide) ⟨rfl, rfl, fun _ => rfl,
      fun _ => rfl⟩
  obtain ⟨res, hres⟩ := hex (by decide) (Or.inl rfl)
  refine ⟨heq, ?_⟩
  have hmem : Ev.statusCheck "a" "KA" res ∈ evsFor "a" (processCycle w7r1
      [("b", ⟨0, [9], "KA", 0, 1⟩), ("a", ⟨0, [4], "KA", 0, 1⟩)]).2 := by
    simp only [evsFor]
    exact List.mem_filter.mpr ⟨hres, by simp [Ev.tileId]⟩
  exact List.ne_nil_of_mem hmem

def w8resp : Responses Nat :=
  ⟨fun _ _ => Except.ok (some "ONLINE"),
   fun _ _ => Except.ok (some "ONLINE"),
   fun _ _ p => Except.ok p, fun _ _ p => Except.ok p⟩

def w8sched : Nat → Responses Nat := fun _ => w8resp

theorem claim8_witness :
    (runFrom w8sched 0 2 (enqueue [] "g" 0 [1] "GENIE" 0)).1 = [] ∧
    (runFrom w8sched 0 2 (enqueue [] "g" 0 [1] "GENIE" 0)).2 = [] :=
  claim8_unknown_kind_terminal w8sched "g" 0 [1] "GENIE" 0 (by decide)
    (by decide) 2 (by decide)

def w9resp : Responses Nat :=
  ⟨fun _ _ => Except.ok (some "PROVISIONING"),
   fun _ _ => Except.ok (some "PROVISIONING"),
   fun _ _ p => Except.ok p, fun _ _ p => Except.ok p⟩

theorem claim9_witness :
    (stopState (⟨[("t", ⟨1, [2], "KA", 0, 6⟩)], true⟩ :
      QueueState Nat)).queue = [("t", ⟨1, [2], "KA", 0, 6⟩)] ∧
    stepState w9resp (stopState (⟨[("t", ⟨1, [2], "KA", 0, 6⟩)], true⟩ :
        QueueState Nat)) =
      (stopState (⟨[("t", ⟨1, [2], "KA", 0, 6⟩)], true⟩ :
        QueueState Nat), []) ∧
    (startState (stopState (⟨[("t", ⟨1, [2], "KA", 0, 6⟩)], true⟩ :
      QueueState Nat))).queue = [("t", ⟨1, [2], "KA", 0, 6⟩)] ∧
    (⟨1, [2], "KA", 0, 7⟩ : Entry Nat).attemptCount =
      (⟨1, [2], "KA", 0, 6⟩ : Entry Nat).attemptCount + 1 := by
  obtain ⟨h1, h2, h3, h4, h5, h6⟩ := claim9_stop_keeps_entries
    (⟨[("t", ⟨1, [2], "KA", 0, 6⟩)], true⟩ : QueueState Nat) w9resp
  exact ⟨h1, h2, h3, h6 "t" ⟨1, [2], "KA", 0, 6⟩ ⟨1, [2], "KA", 0, 7⟩
    (by decide) (by decide) (by decide)⟩

def w10resp : Responses Nat :=
  ⟨fun _ _ => Except.ok (some "ONLINE"),
   fun _ _ => Except.ok (some "ONLINE"),
   fun _ _ p => Except.ok p, fun _ _ p => Except.ok p⟩

theorem claim10_witness :
    qlookup (processEntry w10resp "x" ⟨3, [1, 2], "KA", 0, 30⟩
      [("x", ⟨3, [1, 2], "KA", 0, 30⟩), ("y", ⟨4, [5], "MAS", 0, 2⟩)]).1
      "x" = none ∧
    (processEntry w10resp "x" ⟨3, [1, 2], "KA", 0, 30⟩
      [("x", ⟨3, [1, 2], "KA", 0, 30⟩),
       ("y", ⟨4, [5], "MAS", 0, 2⟩)]).2 = [] ∧
    qlookup (processEntry w10resp "x" ⟨3, [1, 2], "KA", 0, 30⟩
      [("x", ⟨3, [1, 2], "KA", 0, 30⟩), ("y", ⟨4, [5], "MAS", 0, 2⟩)]).1
      "y" = some ⟨4, [5], "MAS", 0, 2⟩ := by
  obtain ⟨h1, h2, h3⟩ := claim10_ceiling_drop_without_calls w10resp "x"
    ⟨3, [1, 2], "KA", 0, 30⟩
    [("x", ⟨3, [1, 2], "KA", 0, 30⟩), ("y", ⟨4, [5], "MAS", 0, 2⟩)]
    (by decide) (by decide)
  refine ⟨h1, h2, ?_⟩
  rw [h3 "y" (by decide)]
  decide

end TileQueue
